import Mathlib

/-!
Verification of the CoSim real-time coordination plane against its source.

This file gives a shallow embedding of the two components the claims are
about:

* the WebRTC signaling server (`webrtc-signaling/server.js` together with its
  Redis-backed `stateStore.js`), and
* the collaboration server's Redis persistence and awareness relay
  (`collab-server/redisPersistence.js`, `collab-server/redisAwareness.js`).

Redis hashes, sets and the JavaScript `Map`s of the node are modelled as
association lists; a Redis `MULTI ... EXEC` transaction is a list of primitive
operations applied atomically by a fold.  WebSocket handles are natural
numbers; the messages a handler sends and the payloads it publishes on the
relay channel are collected as explicit outputs.
-/

namespace CoSim

/-! ### Association lists (Redis hashes / key spaces and JS `Map`s) -/

/-- Look up a key in an association list (first match, like `Map.get` /
`HGETALL` on a key). -/
def alGet [DecidableEq κ] : List (κ × α) → κ → Option α
  | [], _ => none
  | (k', v) :: rest, k => if k' = k then some v else alGet rest k

/-- Set a key in an association list, replacing the first binding or appending
a fresh one (like `Map.set` / `SET`). -/
def alSet [DecidableEq κ] : List (κ × α) → κ → α → List (κ × α)
  | [], k, v => [(k, v)]
  | (k', v') :: rest, k, v =>
    if k' = k then (k, v) :: rest else (k', v') :: alSet rest k v

/-- Delete a key from an association list (like `Map.delete` / `DEL`). -/
def alDel [DecidableEq κ] (l : List (κ × α)) (k : κ) : List (κ × α) :=
  l.filter (fun p => p.1 ≠ k)

theorem alGet_alSet [DecidableEq κ] (l : List (κ × α)) (k k' : κ) (v : α) :
    alGet (alSet l k v) k' = if k = k' then some v else alGet l k' := by
  induction l with
  | nil => by_cases h : k = k' <;> simp [alGet, alSet, h]
  | cons p rest ih =>
    obtain ⟨pk, pv⟩ := p
    by_cases h1 : pk = k
    · by_cases h2 : k = k' <;> simp [alGet, alSet, h1, h2]
    · by_cases h2 : pk = k' <;> by_cases h3 : k = k' <;>
        simp_all [alGet, alSet]

theorem alGet_alDel [DecidableEq κ] (l : List (κ × α)) (k k' : κ) :
    alGet (alDel l k) k' = if k = k' then none else alGet l k' := by
  induction l with
  | nil => by_cases h : k = k' <;> simp [alGet, alDel, h]
  | cons p rest ih =>
    obtain ⟨pk, pv⟩ := p
    by_cases h1 : pk = k <;> by_cases h2 : pk = k' <;> by_cases h3 : k = k' <;>
      simp_all [alGet, alDel]

theorem alSet_of_absent [DecidableEq κ] (l : List (κ × α)) (k : κ) (v : α)
    (h : ∀ p ∈ l, p.1 ≠ k) : alSet l k v = l ++ [(k, v)] := by
  induction l with
  | nil => simp [alSet]
  | cons p rest ih =>
    obtain ⟨pk, pv⟩ := p
    have hpk : pk ≠ k := h (pk, pv) (by simp)
    simp only [alSet, if_neg hpk, List.cons_append, List.cons.injEq, true_and]
    exact ih (fun q hq => h q (List.mem_cons_of_mem _ hq))

theorem mem_alSet_elim [DecidableEq κ] {l : List (κ × α)} {k k' : κ} {v v' : α}
    (h : (k', v') ∈ alSet l k v) : (k' = k ∧ v' = v) ∨ (k', v') ∈ l := by
  induction l with
  | nil => simp [alSet] at h; tauto
  | cons p rest ih =>
    obtain ⟨pk, pv⟩ := p
    by_cases h1 : pk = k
    · simp only [alSet, if_pos h1, List.mem_cons] at h
      rcases h with h | h
      · exact Or.inl ⟨congrArg Prod.fst h, congrArg Prod.snd h⟩
      · exact Or.inr (List.mem_cons_of_mem _ h)
    · simp only [alSet, if_neg h1, List.mem_cons] at h
      rcases h with h | h
      · exact Or.inr (List.mem_cons.mpr (Or.inl h))
      · rcases ih h with h' | h'
        · exact Or.inl h'
        · exact Or.inr (List.mem_cons_of_mem _ h')

theorem mem_alSet_of_mem_ne [DecidableEq κ] {l : List (κ × α)} {k k' : κ} {v v' : α}
    (h : (k', v') ∈ l) (hne : k' ≠ k) : (k', v') ∈ alSet l k v := by
  induction l with
  | nil => simp at h
  | cons p rest ih =>
    obtain ⟨pk, pv⟩ := p
    rcases List.mem_cons.mp h with h' | h'
    · have : pk = k' ∧ pv = v' := ⟨(congrArg Prod.fst h'.symm), (congrArg Prod.snd h'.symm)⟩
      by_cases h1 : pk = k
      · exact absurd (this.1 ▸ h1) hne
      · simp only [alSet, if_neg h1, List.mem_cons]
        exact Or.inl h'
    · by_cases h1 : pk = k
      · simp [alSet, if_pos h1]
        exact Or.inr h'
      · simp [alSet, if_neg h1]
        exact Or.inr (ih h')

theorem mem_alSet_self [DecidableEq κ] {l : List (κ × α)} {k : κ} (v : α) :
    (k, v) ∈ alSet l k v := by
  induction l with
  | nil => simp [alSet]
  | cons p rest ih =>
    obtain ⟨pk, pv⟩ := p
    by_cases h1 : pk = k <;> simp [alSet, h1, ih]

theorem keys_alSet_of_present [DecidableEq κ] (l : List (κ × α)) (k : κ) (v : α)
    (h : alGet l k ≠ none) : (alSet l k v).map Prod.fst = l.map Prod.fst := by
  induction l with
  | nil => simp [alGet] at h
  | cons p rest ih =>
    obtain ⟨pk, pv⟩ := p
    by_cases h1 : pk = k
    · simp [alSet, if_pos h1, h1]
    · simp only [alGet, if_neg h1] at h
      simp [alSet, if_neg h1, ih h]

theorem map_snd_alSet_of_get [DecidableEq κ] (f : α → β) (l : List (κ × α)) (k : κ)
    (v' : α) {v : α} (hget : alGet l k = some v) (hf : f v' = f v) :
    (alSet l k v').map (fun p => f p.2) = l.map (fun p => f p.2) := by
  induction l with
  | nil => simp [alGet] at hget
  | cons p rest ih =>
    obtain ⟨pk, pv⟩ := p
    by_cases h1 : pk = k
    · simp only [alGet, if_pos h1, Option.some.injEq] at hget
      simp [alSet, if_pos h1, hget ▸ hf]
    · simp only [alGet, if_neg h1] at hget
      simp [alSet, if_neg h1, ih hget]

theorem alGet_eq_some_of_mem_nodup [DecidableEq κ] {l : List (κ × α)} {k : κ} {v : α}
    (hnd : (l.map Prod.fst).Nodup) (h : (k, v) ∈ l) : alGet l k = some v := by
  induction l with
  | nil => simp at h
  | cons p rest ih =>
    obtain ⟨pk, pv⟩ := p
    simp only [List.map_cons, List.nodup_cons] at hnd
    rcases List.mem_cons.mp h with h' | h'
    · obtain ⟨h1, h2⟩ : pk = k ∧ pv = v :=
        ⟨congrArg Prod.fst h'.symm, congrArg Prod.snd h'.symm⟩
      simp [alGet, h1, h2]
    · have hk : pk ≠ k := by
        intro hkk
        exact hnd.1 (hkk ▸ (List.mem_map.mpr ⟨(k, v), h', rfl⟩))
      simp [alGet, hk, ih hnd.2 h']

theorem mem_of_mem_alDel [DecidableEq κ] {l : List (κ × α)} {k : κ} {p : κ × α}
    (h : p ∈ alDel l k) : p ∈ l :=
  List.mem_of_mem_filter h

theorem map_alDel_sublist [DecidableEq κ] (f : κ × α → β) (l : List (κ × α)) (k : κ) :
    ((alDel l k).map f).Sublist (l.map f) :=
  (List.filter_sublist l).map f

/-! ### Set values (Redis sets, JS `Set`s) -/

/-- `SADD` / `Set.add`: append the element when it is not yet present. -/
def setAdd [DecidableEq α] (s : List α) (x : α) : List α :=
  if x ∈ s then s else s ++ [x]

/-- `SREM` / `Set.delete`: remove the element. -/
def setRem [DecidableEq α] (s : List α) (x : α) : List α :=
  s.filter (· ≠ x)

theorem mem_setAdd [DecidableEq α] {s : List α} {x y : α} :
    y ∈ setAdd s x ↔ y ∈ s ∨ y = x := by
  by_cases h : x ∈ s
  · simp only [setAdd, if_pos h]
    constructor
    · exact Or.inl
    · rintro (hy | rfl) <;> assumption
  · simp [setAdd, if_neg h]

theorem mem_setRem [DecidableEq α] {s : List α} {x y : α} :
    y ∈ setRem s x ↔ y ∈ s ∧ y ≠ x := by
  simp [setRem, List.mem_filter]

theorem not_mem_setRem_self [DecidableEq α] (s : List α) (x : α) : x ∉ setRem s x := by
  intro h
  exact (mem_setRem.mp h).2 rfl

/-! ### JavaScript truthiness of optional string fields

A field destructured from a JSON message is `undefined` when missing and may
also be the empty string; both are falsy in `if (!field)` guards. -/

/-- JS truthiness of an optional string: present and non-empty. -/
def truthy : Option String → Bool
  | none => false
  | some s => !s.isEmpty

theorem truthy_some {s : String} (h : ¬s.isEmpty) : truthy (some s) = true := by
  simp [truthy, h]

theorem truthy_none : truthy none = false := rfl

/-! ### Signaling substrate (`webrtc-signaling/stateStore.js`)

The Redis keys used by the signaling state store:
`signaling:rooms` (room index set), `signaling:rooms:{r}:members` (member
set), `signaling:clients:{id}` (client hash).  A `multi()...exec()` block is
a list of primitive operations applied atomically. -/

/-- The hash stored at `signaling:clients:{id}` by `registerClient`. -/
structure ClientHash where
  id : String
  roomId : String
  role : String
  serverId : String
  updatedAt : String
deriving DecidableEq, Repr

/-- Primitive Redis operations issued by the state store against the
signaling key space. -/
inductive RedisOp where
  | saddIndex (room : String)
  | saddMembers (room : String) (id : String)
  | hsetClient (id : String) (h : ClientHash)
  | delClient (id : String)
  | sremMembers (room : String) (id : String)
  | delMembers (room : String)
  | sremIndex (room : String)
deriving DecidableEq, Repr

/-- The signaling portion of the shared substrate.  A member-set key is
present exactly when it occurs in `roomMembers`. -/
structure Substrate where
  roomIndex : List String
  roomMembers : List (String × List String)
  clientHash : List (String × ClientHash)
deriving DecidableEq, Repr

def Substrate.empty : Substrate := ⟨[], [], []⟩

/-- Apply one primitive Redis operation. -/
def applyOp (s : Substrate) : RedisOp → Substrate
  | .saddIndex r => { s with roomIndex := setAdd s.roomIndex r }
  | .saddMembers r id =>
    { s with roomMembers :=
        alSet s.roomMembers r (setAdd ((alGet s.roomMembers r).getD []) id) }
  | .hsetClient id h => { s with clientHash := alSet s.clientHash id h }
  | .delClient id => { s with clientHash := alDel s.clientHash id }
  | .sremMembers r id =>
    match alGet s.roomMembers r with
    | none => s
    | some m => { s with roomMembers := alSet s.roomMembers r (setRem m id) }
  | .delMembers r => { s with roomMembers := alDel s.roomMembers r }
  | .sremIndex r => { s with roomIndex := setRem s.roomIndex r }

/-- Apply a `MULTI ... EXEC` transaction atomically. -/
def applyMulti (s : Substrate) (ops : List RedisOp) : Substrate :=
  ops.foldl applyOp s

/-- The member set of a room as Redis reports it (`SMEMBERS` of a missing key
is empty). -/
def memberSet (s : Substrate) (r : String) : List String :=
  (alGet s.roomMembers r).getD []

/-- `StateStore.registerClient`: guarded on falsy `id`/`roomId`; otherwise a
single transaction adds the room to the index, the client to the member set,
and writes the client hash.  Returns the new substrate and the list of
transactions executed. -/
def registerClient (s : Substrate) (serverId now : String)
    (id roomId role : Option String) : Substrate × List (List RedisOp) :=
  if !truthy id || !truthy roomId then (s, [])
  else
    let idv := id.getD ""
    let roomv := roomId.getD ""
    let ops : List RedisOp :=
      [.saddIndex roomv, .saddMembers roomv idv,
       .hsetClient idv ⟨idv, roomv, role.getD "", serverId, now⟩]
    (applyMulti s ops, [ops])

/-- `StateStore.getClient`: `HGETALL` of the client key; a missing key or a
hash without an `id` field reads as `null`. -/
def getClient (s : Substrate) (clientId : Option String) : Option ClientHash :=
  if !truthy clientId then none
  else
    match alGet s.clientHash (clientId.getD "") with
    | none => none
    | some h => if h.id.isEmpty then none else some h

/-- A `{id, role}` entry of the `joined` reply's participant list. -/
structure Participant where
  id : String
  role : String
deriving DecidableEq, Repr

/-- `StateStore.listParticipants`: read the member set, then each member's
hash, keeping entries whose hash has an `id` and defaulting the role to
`viewer`. -/
def listParticipants (s : Substrate) (roomId : Option String) : List Participant :=
  if !truthy roomId then []
  else
    (memberSet s (roomId.getD "")).filterMap (fun id =>
      match alGet s.clientHash id with
      | none => none
      | some h =>
        if h.id.isEmpty then none
        else some ⟨h.id, if h.role.isEmpty then "viewer" else h.role⟩)

/-- `StateStore.removeClient`: one transaction deletes the client hash and
(when a room is given) removes the member; then, if the member set is empty,
a second transaction deletes the member-set key and removes the room from the
index. -/
def removeClient (s : Substrate) (id roomId : Option String) :
    Substrate × List (List RedisOp) :=
  if !truthy id then (s, [])
  else
    let idv := id.getD ""
    let ops1 : List RedisOp :=
      if truthy roomId then [.delClient idv, .sremMembers (roomId.getD "") idv]
      else [.delClient idv]
    let s1 := applyMulti s ops1
    if truthy roomId then
      let roomv := roomId.getD ""
      if (memberSet s1 roomv).length = 0 then
        let ops2 : List RedisOp := [.delMembers roomv, .sremIndex roomv]
        (applyMulti s1 ops2, [ops1, ops2])
      else (s1, [ops1])
    else (s1, [ops1])

/-! ### Substrate lemmas -/

theorem registerClient_falsy (s : Substrate) (serverId now : String)
    (id roomId role : Option String) (h : truthy id = false ∨ truthy roomId = false) :
    registerClient s serverId now id roomId role = (s, []) := by
  rcases h with h | h <;> simp [registerClient, h]

theorem removeClient_falsy (s : Substrate) (id roomId : Option String)
    (h : truthy id = false) : removeClient s id roomId = (s, []) := by
  simp [removeClient, h]

theorem memberSet_registerClient (s : Substrate) (serverId now idv roomv : String)
    (role : Option String) (hid : ¬idv.isEmpty) (hroom : ¬roomv.isEmpty) (r' : String) :
    memberSet (registerClient s serverId now (some idv) (some roomv) role).1 r' =
      if roomv = r' then setAdd (memberSet s roomv) idv else memberSet s r' := by
  simp only [registerClient, truthy_some hid, truthy_some hroom, Bool.not_true,
    Bool.or_self, Bool.false_eq_true, if_false, applyMulti, List.foldl, applyOp,
    Option.getD_some]
  simp only [memberSet, alGet_alSet]
  by_cases h : roomv = r' <;> simp [h]

theorem clientHash_registerClient (s : Substrate) (serverId now idv roomv : String)
    (role : Option String) (hid : ¬idv.isEmpty) (hroom : ¬roomv.isEmpty) :
    alGet (registerClient s serverId now (some idv) (some roomv) role).1.clientHash idv =
      some ⟨idv, roomv, role.getD "", serverId, now⟩ := by
  simp only [registerClient, truthy_some hid, truthy_some hroom, Bool.not_true,
    Bool.or_self, Bool.false_eq_true, if_false, applyMulti, List.foldl, applyOp,
    Option.getD_some]
  simp [alGet_alSet]

theorem roomIndex_registerClient (s : Substrate) (serverId now idv roomv : String)
    (role : Option String) (hid : ¬idv.isEmpty) (hroom : ¬roomv.isEmpty) :
    roomv ∈ (registerClient s serverId now (some idv) (some roomv) role).1.roomIndex := by
  simp only [registerClient, truthy_some hid, truthy_some hroom, Bool.not_true,
    Bool.or_self, Bool.false_eq_true, if_false, applyMulti, List.foldl, applyOp,
    Option.getD_some]
  exact mem_setAdd.mpr (Or.inr rfl)

theorem txns_registerClient (s : Substrate) (serverId now idv roomv : String)
    (role : Option String) (hid : ¬idv.isEmpty) (hroom : ¬roomv.isEmpty) :
    (registerClient s serverId now (some idv) (some roomv) role).2 =
      [[.saddIndex roomv, .saddMembers roomv idv,
        .hsetClient idv ⟨idv, roomv, role.getD "", serverId, now⟩]] := by
  simp [registerClient, truthy_some hid, truthy_some hroom]

/-- The intermediate state after `removeClient`'s first transaction
`[DEL clients:{id}, SREM rooms:{r}:members id]`. -/
def rcMid (s : Substrate) (idv roomv : String) : Substrate :=
  applyMulti s [.delClient idv, .sremMembers roomv idv]

theorem rcMid_memberSet (s : Substrate) (idv roomv r' : String) :
    memberSet (rcMid s idv roomv) r' =
      if roomv = r' then setRem (memberSet s r') idv else memberSet s r' := by
  cases hg : alGet s.roomMembers roomv with
  | none =>
    have hv : memberSet s roomv = [] := by simp [memberSet, hg]
    by_cases h : roomv = r'
    · subst h
      simp [rcMid, applyMulti, applyOp, memberSet, hg, hv, setRem]
    · simp [rcMid, applyMulti, applyOp, memberSet, hg, h]
  | some m =>
    by_cases h : roomv = r'
    · subst h
      simp [rcMid, applyMulti, applyOp, memberSet, hg, alGet_alSet]
    · simp [rcMid, applyMulti, applyOp, memberSet, hg, alGet_alSet, h]

theorem rcMid_roomIndex (s : Substrate) (idv roomv : String) :
    (rcMid s idv roomv).roomIndex = s.roomIndex := by
  cases hg : alGet s.roomMembers roomv <;>
    simp [rcMid, applyMulti, applyOp, hg]

theorem rcMid_clientHash (s : Substrate) (idv roomv : String) :
    (rcMid s idv roomv).clientHash = alDel s.clientHash idv := by
  cases hg : alGet s.roomMembers roomv <;>
    simp [rcMid, applyMulti, applyOp, hg]

theorem removeClient_some_eq (s : Substrate) (idv roomv : String)
    (hid : ¬idv.isEmpty) (hroom : ¬roomv.isEmpty) :
    removeClient s (some idv) (some roomv) =
      if (memberSet (rcMid s idv roomv) roomv).length = 0 then
        (applyMulti (rcMid s idv roomv) [.delMembers roomv, .sremIndex roomv],
         [[.delClient idv, .sremMembers roomv idv],
          [.delMembers roomv, .sremIndex roomv]])
      else (rcMid s idv roomv, [[.delClient idv, .sremMembers roomv idv]]) := by
  simp [removeClient, truthy_some hid, truthy_some hroom, rcMid]

theorem memberSet_removeClient (s : Substrate) (idv roomv : String)
    (hid : ¬idv.isEmpty) (hroom : ¬roomv.isEmpty) (r' : String) :
    memberSet (removeClient s (some idv) (some roomv)).1 r' =
      if roomv = r' then setRem (memberSet s r') idv else memberSet s r' := by
  rw [removeClient_some_eq s idv roomv hid hroom]
  by_cases hlen : (memberSet (rcMid s idv roomv) roomv).length = 0
  · have hempty : memberSet (rcMid s idv roomv) roomv = [] :=
      List.length_eq_zero.mp hlen
    have hrem : setRem (memberSet s roomv) idv = [] := by
      have := rcMid_memberSet s idv roomv roomv
      rw [if_pos rfl] at this
      rw [← this]; exact hempty
    simp only [if_pos hlen, applyMulti, List.foldl, applyOp]
    by_cases h : roomv = r'
    · subst h
      have hrem' : setRem ((alGet s.roomMembers roomv).getD []) idv = [] := hrem
      simp [memberSet, alGet_alDel, hrem']
    · have := rcMid_memberSet s idv roomv r'
      rw [if_neg h] at this
      simp only [if_neg h, memberSet, alGet_alDel]
      simpa [memberSet] using this
  · simp only [if_neg hlen]
    exact rcMid_memberSet s idv roomv r'

theorem removeClient_cleanup (s : Substrate) (idv roomv : String)
    (hid : ¬idv.isEmpty) (hroom : ¬roomv.isEmpty)
    (hlast : setRem (memberSet s roomv) idv = []) :
    alGet (removeClient s (some idv) (some roomv)).1.roomMembers roomv = none ∧
      roomv ∉ (removeClient s (some idv) (some roomv)).1.roomIndex := by
  rw [removeClient_some_eq s idv roomv hid hroom]
  have hmid : memberSet (rcMid s idv roomv) roomv = [] := by
    have := rcMid_memberSet s idv roomv roomv
    rw [if_pos rfl] at this
    rw [this, hlast]
  rw [hmid]
  simp only [List.length_nil, if_pos rfl, applyMulti, List.foldl, applyOp]
  constructor
  · simp [alGet_alDel]
  · exact not_mem_setRem_self _ _

theorem clientHash_removeClient (s : Substrate) (idv roomv : String)
    (hid : ¬idv.isEmpty) (hroom : ¬roomv.isEmpty) :
    alGet (removeClient s (some idv) (some roomv)).1.clientHash idv = none := by
  rw [removeClient_some_eq s idv roomv hid hroom]
  by_cases hlen : (memberSet (rcMid s idv roomv) roomv).length = 0
  · simp only [if_pos hlen, applyMulti, List.foldl, applyOp]
    simp [rcMid_clientHash, alGet_alDel]
  · simp only [if_neg hlen]
    simp [rcMid_clientHash, alGet_alDel]

/-! ### Signaling server (`webrtc-signaling/server.js`)

WebSocket handles are natural numbers; the `clients` map (`ws → {id, roomId,
role}`) and the `rooms` map (`roomId → Set of ws`) of the node are
association lists.  Handlers return the updated node state (which bundles the
substrate) together with the messages sent, the payloads published on the
`signaling:relay` channel, and the Redis transactions executed. -/

/-- The per-connection metadata of `clients.set(ws, {id, roomId, role})`. -/
structure Client where
  id : String
  roomId : Option String
  role : Option String
deriving DecidableEq, Repr

/-- Messages the server sends to clients (the `{type, ...}` JSON envelopes). -/
inductive SigMsg where
  | welcome (clientId : String)
  | joined (roomId role : String) (participants : List Participant)
  | peerJoined (peerId role : String)
  | peerLeft (peerId : String)
  | offer (fromId sdp : String)
  | answer (fromId sdp : String)
  | iceCandidate (fromId candidate : String)
  | error (message : String)
deriving DecidableEq, Repr

/-- A payload published on the `signaling:relay` channel. -/
structure RelayPayload where
  originServerId : String
  targetServerId : String
  targetId : String
  message : Option SigMsg
deriving DecidableEq, Repr

/-- One node of the signaling fabric: its server id, the in-memory `clients`
and `rooms` maps, the counter generating fresh WebSocket handles, and the
shared substrate. -/
structure NodeState where
  serverId : String
  clients : List (Nat × Client)
  rooms : List (String × List Nat)
  nextWs : Nat
  sub : Substrate
deriving DecidableEq, Repr

/-- What one handler invocation produces. -/
structure StepOut where
  st : NodeState
  sends : List (Nat × SigMsg)
  pubs : List RelayPayload
  txns : List (List RedisOp)
deriving DecidableEq, Repr

def noopOut (st : NodeState) : StepOut := ⟨st, [], [], []⟩

/-- `findClientById`: scan the `clients` map for the first entry whose id
matches. -/
def findClientById (st : NodeState) (clientId : String) : Option Nat :=
  (st.clients.find? (fun p => p.2.id = clientId)).map Prod.fst

/-- `broadcast(sender, roomId, message)`: send to every socket of the room
except the sender; a missing room broadcasts to nobody. -/
def broadcast (st : NodeState) (sender : Nat) (roomId : String) (m : SigMsg) :
    List (Nat × SigMsg) :=
  match alGet st.rooms roomId with
  | none => []
  | some room => (room.filter (· ≠ sender)).map (fun w => (w, m))

/-- `relayOrSend(ws, targetId, message, {notifyMissing})`: deliver locally if
the target is connected to this node; otherwise look the target up in the
substrate and publish to the relay channel; if the target is unknown (or its
hash has no server id), send an error to the sender only when
`notifyMissing`.  Returns (sends, publishes, forwarded). -/
def relayOrSend (st : NodeState) (ws : Nat) (targetId : String) (message : SigMsg)
    (notifyMissing : Bool) : List (Nat × SigMsg) × List RelayPayload × Bool :=
  match findClientById st targetId with
  | some targetWs => ([(targetWs, message)], [], true)
  | none =>
    match getClient st.sub (some targetId) with
    | none =>
      (if notifyMissing then
        [(ws, .error ("Target client " ++ targetId ++ " not found"))]
       else [], [], false)
    | some remote =>
      if remote.serverId.isEmpty then
        (if notifyMissing then
          [(ws, .error ("Target client " ++ targetId ++ " not found"))]
         else [], [], false)
      else
        ([], [⟨st.serverId, remote.serverId, targetId, some message⟩], true)

/-- `handleOffer`: require `targetId` (string) and `offer` (object), then
relay with `notifyMissing: true`. -/
def handleOffer (st : NodeState) (ws : Nat) (targetId sdp : Option String) : StepOut :=
  match alGet st.clients ws with
  | none => noopOut st
  | some c =>
    if truthy targetId && sdp.isSome then
      let (sends, pubs, _) :=
        relayOrSend st ws (targetId.getD "") (.offer c.id (sdp.getD "")) true
      ⟨st, sends, pubs, []⟩
    else ⟨st, [(ws, .error "targetId and offer are required")], [], []⟩

/-- `handleAnswer`: like `handleOffer`, relaying an answer with
`notifyMissing: true`. -/
def handleAnswer (st : NodeState) (ws : Nat) (targetId sdp : Option String) : StepOut :=
  match alGet st.clients ws with
  | none => noopOut st
  | some c =>
    if truthy targetId && sdp.isSome then
      let (sends, pubs, _) :=
        relayOrSend st ws (targetId.getD "") (.answer c.id (sdp.getD "")) true
      ⟨st, sends, pubs, []⟩
    else ⟨st, [(ws, .error "targetId and answer are required")], [], []⟩

/-- `handleIceCandidate`: like `handleOffer`, but relayed with
`notifyMissing: false`. -/
def handleIceCandidate (st : NodeState) (ws : Nat) (targetId candidate : Option String) :
    StepOut :=
  match alGet st.clients ws with
  | none => noopOut st
  | some c =>
    if truthy targetId && candidate.isSome then
      let (sends, pubs, _) :=
        relayOrSend st ws (targetId.getD "") (.iceCandidate c.id (candidate.getD "")) false
      ⟨st, sends, pubs, []⟩
    else ⟨st, [(ws, .error "targetId and candidate are required")], [], []⟩

/-- The local-room part of `handleLeave`: delete the socket from the room's
set, broadcast `peer-left` over the shrunk set, and drop the room from the
local map when it became empty.  A room absent from the map is left alone. -/
def leaveLocal (st : NodeState) (ws : Nat) (cid roomId : String) :
    NodeState × List (Nat × SigMsg) :=
  match alGet st.rooms roomId with
  | none => (st, [])
  | some room =>
    let room2 := room.filter (· ≠ ws)
    let stA := { st with rooms := alSet st.rooms roomId room2 }
    let sends := broadcast stA ws roomId (.peerLeft cid)
    let stB :=
      if room2.length = 0 then { stA with rooms := alDel stA.rooms roomId }
      else stA
    (stB, sends)

/-- `handleLeave`: when the client is in a room, delete its socket from the
local room set, broadcast `peer-left`, garbage-collect the empty local room,
run `stateStore.removeClient`, and reset the client's `roomId`/`role`. -/
def handleLeave (st : NodeState) (ws : Nat) : StepOut :=
  match alGet st.clients ws with
  | none => noopOut st
  | some c =>
    if truthy c.roomId then
      let roomId := c.roomId.getD ""
      let stepA := leaveLocal st ws c.id roomId
      let st1 := stepA.1
      let (sub2, txns) := removeClient st1.sub (some c.id) (some roomId)
      ⟨{ st1 with
          sub := sub2,
          clients := alSet st1.clients ws ⟨c.id, none, none⟩ },
       stepA.2, [], txns⟩
    else noopOut st

/-- The tail of `handleJoin` after a successful guard (and after the implicit
leave): set the client's fields, add its socket to the local room set, and
register it in the substrate. -/
def joinCont (st1 : NodeState) (ws : Nat) (cid r rl now : String) :
    NodeState × List (List RedisOp) :=
  let st2 := { st1 with clients := alSet st1.clients ws ⟨cid, some r, some rl⟩ }
  let st3 := { st2 with rooms := alSet st2.rooms r (setAdd ((alGet st2.rooms r).getD []) ws) }
  let (sub4, txns) := registerClient st3.sub st3.serverId now (some cid) (some r) (some rl)
  ({ st3 with sub := sub4 }, txns)

/-- `handleJoin`: reject a falsy `roomId` or `role` with an error; otherwise
leave the current room if any, join the new room locally and in the
substrate, reply `joined` with the current participant list, and broadcast
`peer-joined`. -/
def handleJoin (st : NodeState) (ws : Nat) (roomId role : Option String) (now : String) :
    StepOut :=
  match alGet st.clients ws with
  | none => noopOut st
  | some c =>
    if truthy roomId && truthy role then
      let out1 := if truthy c.roomId then handleLeave st ws else noopOut st
      let r := roomId.getD ""
      let rl := role.getD ""
      let (st4, txns2) := joinCont out1.st ws c.id r rl now
      let participants := listParticipants st4.sub (some r)
      ⟨st4,
       out1.sends ++ [(ws, .joined r rl participants)] ++
         broadcast st4 ws r (.peerJoined c.id rl),
       out1.pubs, out1.txns ++ txns2⟩
    else ⟨st, [(ws, .error "roomId and role are required")], [], []⟩

/-- `handleDisconnect`: leave the current room, then drop the socket from the
`clients` map. -/
def handleDisconnect (st : NodeState) (ws : Nat) : StepOut :=
  match alGet st.clients ws with
  | none => noopOut st
  | some _ =>
    let out := handleLeave st ws
    ⟨{ out.st with clients := alDel out.st.clients ws }, out.sends, out.pubs, out.txns⟩

/-- `handleRelayDelivery`: ignore payloads addressed to another node, payloads
this node itself published, payloads whose target client is no longer locally
connected, and payloads without a message body; otherwise deliver the message
to the target's socket.  Nothing is ever sent to the payload's sender. -/
def handleRelayDelivery (st : NodeState) (payload : Option RelayPayload) :
    List (Nat × SigMsg) :=
  match payload with
  | none => []
  | some p =>
    if p.targetServerId ≠ st.serverId then []
    else if p.originServerId = st.serverId then []
    else
      match findClientById st p.targetId, p.message with
      | some targetWs, some m => [(targetWs, m)]
      | _, _ => []

/-- A new WebSocket connection: allocate a handle, store the client metadata
with the freshly generated id, and send `welcome`. -/
def connectStep (st : NodeState) (clientId : String) : StepOut :=
  let ws := st.nextWs
  ⟨{ st with
      clients := alSet st.clients ws ⟨clientId, none, none⟩,
      nextWs := st.nextWs + 1 },
   [(ws, .welcome clientId)], [], []⟩

/-- The events the server reacts to (besides `connect`, which carries the
generated uuid and is treated separately in `Reachable`). -/
inductive Event where
  | join (ws : Nat) (roomId role : Option String)
  | offer (ws : Nat) (targetId sdp : Option String)
  | answer (ws : Nat) (targetId sdp : Option String)
  | ice (ws : Nat) (targetId candidate : Option String)
  | leave (ws : Nat)
  | disconnect (ws : Nat)
  | relay (payload : Option RelayPayload)
deriving DecidableEq, Repr

/-- Dispatch of `handleMessage` / the socket close handler / the relay
subscription. -/
def stepEvent (st : NodeState) (e : Event) (now : String) : StepOut :=
  match e with
  | .join ws roomId role => handleJoin st ws roomId role now
  | .offer ws t o => handleOffer st ws t o
  | .answer ws t a => handleAnswer st ws t a
  | .ice ws t c => handleIceCandidate st ws t c
  | .leave ws => handleLeave st ws
  | .disconnect ws => handleDisconnect st ws
  | .relay p => ⟨st, handleRelayDelivery st p, [], []⟩

/-- A freshly started node: no clients, no rooms, empty substrate. -/
def initState (serverId : String) : NodeState :=
  ⟨serverId, [], [], 0, Substrate.empty⟩

/-- The ids of the locally connected clients. -/
def localIds (st : NodeState) : List String :=
  st.clients.map (fun p => p.2.id)

/-- The states a single signaling node can reach.  `connect` carries the
uuidv4 generated for the new client; uuid generation never repeats an id of a
connected client, which the side condition records. -/
inductive Reachable : NodeState → Prop where
  | init (serverId : String) : Reachable (initState serverId)
  | connect {s : NodeState} (id : String) (h : Reachable s)
      (fresh : id ∉ localIds s) : Reachable (connectStep s id).st
  | evt {s : NodeState} (e : Event) (now : String) (h : Reachable s) :
      Reachable (stepEvent s e now).st

/-! ### Characterization lemmas for the handlers -/

theorem leaveLocal_clients (st : NodeState) (ws : Nat) (cid r : String) :
    (leaveLocal st ws cid r).1.clients = st.clients := by
  unfold leaveLocal
  cases alGet st.rooms r with
  | none => rfl
  | some room =>
    dsimp only
    split <;> rfl

theorem leaveLocal_sub (st : NodeState) (ws : Nat) (cid r : String) :
    (leaveLocal st ws cid r).1.sub = st.sub := by
  unfold leaveLocal
  cases alGet st.rooms r with
  | none => rfl
  | some room =>
    dsimp only
    split <;> rfl

theorem leaveLocal_serverId (st : NodeState) (ws : Nat) (cid r : String) :
    (leaveLocal st ws cid r).1.serverId = st.serverId := by
  unfold leaveLocal
  cases alGet st.rooms r with
  | none => rfl
  | some room =>
    dsimp only
    split <;> rfl

theorem leaveLocal_nextWs (st : NodeState) (ws : Nat) (cid r : String) :
    (leaveLocal st ws cid r).1.nextWs = st.nextWs := by
  unfold leaveLocal
  cases alGet st.rooms r with
  | none => rfl
  | some room =>
    dsimp only
    split <;> rfl

/-- `handleLeave` on a client that is in a room: the local room shrinks via
`leaveLocal`, the substrate changes via `removeClient`, and the client's
fields are reset. -/
theorem handleLeave_acts (st : NodeState) (ws : Nat) (c : Client) (r : String)
    (hc : alGet st.clients ws = some c) (hr : c.roomId = some r) (hne : ¬r.isEmpty) :
    handleLeave st ws =
      ⟨{ (leaveLocal st ws c.id r).1 with
          sub := (removeClient st.sub (some c.id) (some r)).1,
          clients := alSet st.clients ws ⟨c.id, none, none⟩ },
       (leaveLocal st ws c.id r).2, [],
       (removeClient st.sub (some c.id) (some r)).2⟩ := by
  cases hrc : removeClient st.sub (some c.id) (some r) with
  | mk sub2 txns =>
    have h1 := leaveLocal_clients st ws c.id r
    have h2 := leaveLocal_sub st ws c.id r
    simp [handleLeave, hc, hr, truthy_some hne, h1, h2, hrc]

theorem handleLeave_no_client (st : NodeState) (ws : Nat)
    (hc : alGet st.clients ws = none) : handleLeave st ws = noopOut st := by
  simp [handleLeave, hc]

theorem handleLeave_no_room (st : NodeState) (ws : Nat) (c : Client)
    (hc : alGet st.clients ws = some c) (hr : truthy c.roomId = false) :
    handleLeave st ws = noopOut st := by
  simp [handleLeave, hc, hr]

theorem handleLeave_serverId (st : NodeState) (ws : Nat) :
    (handleLeave st ws).st.serverId = st.serverId := by
  unfold handleLeave
  cases hc : alGet st.clients ws with
  | none => rfl
  | some c =>
    by_cases h : truthy c.roomId
    · cases hrc : removeClient (leaveLocal st ws c.id (c.roomId.getD "")).1.sub
        (some c.id) (some (c.roomId.getD "")) with
      | mk sub2 txns => simp [h, hrc, leaveLocal_serverId]
    · simp [h, noopOut]

theorem handleLeave_nextWs (st : NodeState) (ws : Nat) :
    (handleLeave st ws).st.nextWs = st.nextWs := by
  unfold handleLeave
  cases hc : alGet st.clients ws with
  | none => rfl
  | some c =>
    by_cases h : truthy c.roomId
    · cases hrc : removeClient (leaveLocal st ws c.id (c.roomId.getD "")).1.sub
        (some c.id) (some (c.roomId.getD "")) with
      | mk sub2 txns => simp [h, hrc, leaveLocal_nextWs]
    · simp [h, noopOut]

theorem joinCont_eq (st1 : NodeState) (ws : Nat) (cid r rl now : String) :
    (joinCont st1 ws cid r rl now).1.sub =
      (registerClient st1.sub st1.serverId now (some cid) (some r) (some rl)).1 ∧
    (joinCont st1 ws cid r rl now).2 =
      (registerClient st1.sub st1.serverId now (some cid) (some r) (some rl)).2 ∧
    (joinCont st1 ws cid r rl now).1.serverId = st1.serverId := by
  cases hreg : registerClient st1.sub st1.serverId now (some cid) (some r) (some rl) with
  | mk sub4 txns => simp [joinCont, hreg]

/-- `handleJoin` with a truthy room and role, written with its pieces named. -/
theorem handleJoin_truthy_eq (st : NodeState) (ws : Nat) (c : Client)
    (r rl now : String) (hc : alGet st.clients ws = some c)
    (hr : ¬r.isEmpty) (hrl : ¬rl.isEmpty) :
    handleJoin st ws (some r) (some rl) now =
      (let out1 := if truthy c.roomId then handleLeave st ws else noopOut st
       let p := joinCont out1.st ws c.id r rl now
       ⟨p.1,
        out1.sends ++ [(ws, .joined r rl (listParticipants p.1.sub (some r)))] ++
          broadcast p.1 ws r (.peerJoined c.id rl),
        out1.pubs, out1.txns ++ p.2⟩) := by
  cases hj : joinCont (if truthy c.roomId then handleLeave st ws else noopOut st).st
      ws c.id r rl now with
  | mk st4 txns2 =>
    simp [handleJoin, hc, truthy_some hr, truthy_some hrl, hj]

/-! ### More association-list and truthiness helpers -/

theorem mem_of_alGet_eq_some [DecidableEq κ] {l : List (κ × α)} {k : κ} {v : α}
    (h : alGet l k = some v) : (k, v) ∈ l := by
  induction l with
  | nil => simp [alGet] at h
  | cons p rest ih =>
    obtain ⟨pk, pv⟩ := p
    by_cases h1 : pk = k
    · simp only [alGet, if_pos h1, Option.some.injEq] at h
      simp [h1, h]
    · simp only [alGet, if_neg h1] at h
      exact List.mem_cons_of_mem _ (ih h)

theorem mem_alDel_of_mem_ne [DecidableEq κ] {l : List (κ × α)} {k : κ} {p : κ × α}
    (h : p ∈ l) (hne : p.1 ≠ k) : p ∈ alDel l k :=
  List.mem_filter.mpr ⟨h, by simpa using hne⟩

theorem truthy_eq_true_iff (o : Option String) :
    truthy o = true ↔ ∃ s, o = some s ∧ ¬s.isEmpty := by
  cases o <;> simp [truthy]

theorem joinCont_clients (st1 : NodeState) (ws : Nat) (cid r rl now : String) :
    (joinCont st1 ws cid r rl now).1.clients =
      alSet st1.clients ws ⟨cid, some r, some rl⟩ := by
  cases hreg : registerClient st1.sub st1.serverId now (some cid) (some r) (some rl) with
  | mk sub4 txns => simp [joinCont, hreg]

theorem joinCont_nextWs (st1 : NodeState) (ws : Nat) (cid r rl now : String) :
    (joinCont st1 ws cid r rl now).1.nextWs = st1.nextWs := by
  cases hreg : registerClient st1.sub st1.serverId now (some cid) (some r) (some rl) with
  | mk sub4 txns => simp [joinCont, hreg]

theorem handleOffer_st (st : NodeState) (ws : Nat) (t o : Option String) :
    (handleOffer st ws t o).st = st := by
  unfold handleOffer
  cases alGet st.clients ws with
  | none => rfl
  | some c =>
    dsimp only
    split <;> rfl

theorem handleAnswer_st (st : NodeState) (ws : Nat) (t a : Option String) :
    (handleAnswer st ws t a).st = st := by
  unfold handleAnswer
  cases alGet st.clients ws with
  | none => rfl
  | some c =>
    dsimp only
    split <;> rfl

theorem handleIceCandidate_st (st : NodeState) (ws : Nat) (t cd : Option String) :
    (handleIceCandidate st ws t cd).st = st := by
  unfold handleIceCandidate
  cases alGet st.clients ws with
  | none => rfl
  | some c =>
    dsimp only
    split <;> rfl

/-- After any `handleLeave`, the socket's client record exists (when it did)
and its `roomId` is falsy. -/
theorem handleLeave_get (s : NodeState) (ws : Nat) (c : Client)
    (hc : alGet s.clients ws = some c) :
    ∃ c2, alGet (handleLeave s ws).st.clients ws = some c2 ∧
      truthy c2.roomId = false := by
  by_cases h : truthy c.roomId
  · obtain ⟨r, hr, hrne⟩ := (truthy_eq_true_iff c.roomId).mp h
    rw [handleLeave_acts s ws c r hc hr hrne]
    refine ⟨⟨c.id, none, none⟩, ?_, rfl⟩
    show alGet (alSet s.clients ws ⟨c.id, none, none⟩) ws = _
    rw [alGet_alSet, if_pos rfl]
  · rw [handleLeave_no_room s ws c hc (by simpa using h)]
    exact ⟨c, hc, by simpa using h⟩

/-! ### The node invariant behind C5 -/

/-- The inductive invariant of a signaling node: socket handles are below the
allocation counter and unique, client ids are unique, and every substrate
room membership is witnessed by a locally connected client whose in-memory
`roomId` is that (non-empty) room. -/
structure Inv (st : NodeState) : Prop where
  wsBound : ∀ p ∈ st.clients, p.1 < st.nextWs
  wsNodup : (st.clients.map Prod.fst).Nodup
  idNodup : (st.clients.map (fun p => p.2.id)).Nodup
  memberSound : ∀ r id, id ∈ memberSet st.sub r →
    ¬r.isEmpty ∧ ¬id.isEmpty ∧
      ∃ ws c, (ws, c) ∈ st.clients ∧ c.id = id ∧ c.roomId = some r

/-- With unique socket keys, a membership witness at a looked-up socket is
the looked-up record. -/
theorem Inv.client_unique {st : NodeState} (hinv : Inv st) {ws : Nat} {c c' : Client}
    (hc : alGet st.clients ws = some c) (hm : (ws, c') ∈ st.clients) : c' = c := by
  have := alGet_eq_some_of_mem_nodup hinv.wsNodup hm
  rw [hc] at this
  exact (Option.some.injEq _ _ ▸ this).symm

theorem inv_init (serverId : String) : Inv (initState serverId) := by
  refine ⟨?_, ?_, ?_, ?_⟩
  · intro p hp; simp [initState] at hp
  · simp [initState]
  · simp [initState]
  · intro r id hmem
    simp [initState, Substrate.empty, memberSet, alGet] at hmem

theorem inv_connect {s : NodeState} (id : String) (hinv : Inv s)
    (fresh : id ∉ localIds s) : Inv (connectStep s id).st := by
  have habs : ∀ p ∈ s.clients, p.1 ≠ s.nextWs := by
    intro p hp
    exact Nat.ne_of_lt (hinv.wsBound p hp)
  have hcl : (connectStep s id).st.clients = s.clients ++ [(s.nextWs, ⟨id, none, none⟩)] := by
    show alSet s.clients s.nextWs ⟨id, none, none⟩ = _
    exact alSet_of_absent s.clients s.nextWs ⟨id, none, none⟩ habs
  refine ⟨?_, ?_, ?_, ?_⟩
  · intro p hp
    rw [hcl] at hp
    show p.1 < s.nextWs + 1
    rcases List.mem_append.mp hp with h | h
    · exact Nat.lt_succ_of_lt (hinv.wsBound p h)
    · simp at h
      subst h
      exact Nat.lt_succ_self _
  · rw [hcl]
    rw [List.map_append, List.nodup_append]
    refine ⟨hinv.wsNodup, List.nodup_singleton _, ?_⟩
    intro x hx hy
    simp at hy
    rcases List.mem_map.mp hx with ⟨p, hp, hfx⟩
    exact absurd (hfx.trans hy) (habs p hp)
  · rw [hcl]
    rw [List.map_append, List.nodup_append]
    refine ⟨hinv.idNodup, List.nodup_singleton _, ?_⟩
    intro x hx hy
    simp at hy
    subst hy
    exact fresh hx
  · intro r idm hmem
    have hmem' : idm ∈ memberSet s.sub r := hmem
    obtain ⟨h1, h2, ws', c', hm, hcid, hcr⟩ := hinv.memberSound r idm hmem'
    exact ⟨h1, h2, ws', c', by rw [hcl]; exact List.mem_append_left _ hm, hcid, hcr⟩

theorem inv_leave {s : NodeState} (hinv : Inv s) (ws : Nat) :
    Inv (handleLeave s ws).st := by
  cases hc : alGet s.clients ws with
  | none =>
    rw [handleLeave_no_client s ws hc]
    exact hinv
  | some c =>
    by_cases htr : truthy c.roomId
    · obtain ⟨r, hr, hrne⟩ := (truthy_eq_true_iff c.roomId).mp htr
      rw [handleLeave_acts s ws c r hc hr hrne]
      refine ⟨?_, ?_, ?_, ?_⟩
      · show ∀ p ∈ alSet s.clients ws ⟨c.id, none, none⟩,
          p.1 < (leaveLocal s ws c.id r).1.nextWs
        rw [leaveLocal_nextWs]
        rintro ⟨pws, pc⟩ hp
        rcases mem_alSet_elim hp with ⟨h1, h2⟩ | h
        · have := hinv.wsBound (ws, c) (mem_of_alGet_eq_some hc)
          simpa [h1] using this
        · exact hinv.wsBound (pws, pc) h
      · show ((alSet s.clients ws ⟨c.id, none, none⟩).map Prod.fst).Nodup
        rw [keys_alSet_of_present s.clients ws _ (by simp [hc])]
        exact hinv.wsNodup
      · show ((alSet s.clients ws ⟨c.id, none, none⟩).map (fun p => p.2.id)).Nodup
        rw [map_snd_alSet_of_get (fun cl => cl.id) s.clients ws ⟨c.id, none, none⟩ hc
          (rfl : c.id = c.id)]
        exact hinv.idNodup
      · intro r' id' hmem
        have hmem2 : id' ∈ memberSet (removeClient s.sub (some c.id) (some r)).1 r' :=
          hmem
        by_cases hcid : c.id.isEmpty
        · have hfal : truthy (some c.id) = false := by simp [truthy, hcid]
          rw [removeClient_falsy s.sub (some c.id) (some r) hfal] at hmem2
          obtain ⟨h1, h2, ws'', c'', hm, hcid'', hcr''⟩ := hinv.memberSound r' id' hmem2
          have hwsne : ws'' ≠ ws := by
            intro he
            subst he
            have hceq : c'' = c := hinv.client_unique hc hm
            exact h2 (by rw [← hcid'', hceq]; exact hcid)
          exact ⟨h1, h2, ws'', c'', mem_alSet_of_mem_ne hm hwsne, hcid'', hcr''⟩
        · rw [memberSet_removeClient s.sub c.id r hcid hrne r'] at hmem2
          by_cases hre : r = r'
          · rw [if_pos hre] at hmem2
            obtain ⟨hmem', hne⟩ := mem_setRem.mp hmem2
            obtain ⟨h1, h2, ws'', c'', hm, hcid'', hcr''⟩ :=
              hinv.memberSound r' id' hmem'
            have hwsne : ws'' ≠ ws := by
              intro he
              subst he
              have hceq : c'' = c := hinv.client_unique hc hm
              exact hne (by rw [← hcid'', hceq])
            exact ⟨h1, h2, ws'', c'', mem_alSet_of_mem_ne hm hwsne, hcid'', hcr''⟩
          · rw [if_neg hre] at hmem2
            obtain ⟨h1, h2, ws'', c'', hm, hcid'', hcr''⟩ :=
              hinv.memberSound r' id' hmem2
            have hwsne : ws'' ≠ ws := by
              intro he
              subst he
              have hceq : c'' = c := hinv.client_unique hc hm
              rw [hceq, hr] at hcr''
              exact hre (Option.some.inj hcr'')
            exact ⟨h1, h2, ws'', c'', mem_alSet_of_mem_ne hm hwsne, hcid'', hcr''⟩
    · rw [handleLeave_no_room s ws c hc (by simpa using htr)]
      exact hinv

theorem inv_joinCont {st1 : NodeState} (hinv : Inv st1) (ws : Nat)
    (c' : Client) (cid r rl now : String)
    (hc : alGet st1.clients ws = some c')
    (hcid : cid = c'.id)
    (hcr : truthy c'.roomId = false)
    (hrne : ¬r.isEmpty) :
    Inv (joinCont st1 ws cid r rl now).1 := by
  have hcl := joinCont_clients st1 ws cid r rl now
  have hnw := joinCont_nextWs st1 ws cid r rl now
  have hsub := (joinCont_eq st1 ws cid r rl now).1
  refine ⟨?_, ?_, ?_, ?_⟩
  · rintro ⟨pws, pc⟩ hp
    rw [hcl] at hp
    rw [hnw]
    rcases mem_alSet_elim hp with ⟨h1, h2⟩ | h
    · have := hinv.wsBound (ws, c') (mem_of_alGet_eq_some hc)
      simpa [h1] using this
    · exact hinv.wsBound (pws, pc) h
  · rw [hcl, keys_alSet_of_present st1.clients ws _ (by simp [hc])]
    exact hinv.wsNodup
  · rw [hcl, map_snd_alSet_of_get (fun cl => cl.id) st1.clients ws
      ⟨cid, some r, some rl⟩ hc (by simp [hcid])]
    exact hinv.idNodup
  · intro r' id' hmem
    rw [hsub] at hmem
    have hwitness_old : ∀ (ws'' : Nat) (c'' : Client), (ws'', c'') ∈ st1.clients →
        c''.roomId = some r' → ¬r'.isEmpty → ws'' ≠ ws := by
      intro ws'' c'' hm hcr'' hr'ne he
      subst he
      have hceq : c'' = c' := hinv.client_unique hc hm
      rw [hceq] at hcr''
      rw [hcr''] at hcr
      simp [truthy, hr'ne] at hcr
    by_cases hempty : cid.isEmpty
    · have hfal : truthy (some cid) = false ∨ truthy (some r) = false :=
        Or.inl (by simp [truthy, hempty])
      rw [registerClient_falsy st1.sub st1.serverId now (some cid) (some r) (some rl)
        hfal] at hmem
      obtain ⟨h1, h2, ws'', c'', hm, hcid'', hcr''⟩ := hinv.memberSound r' id' hmem
      have hwsne : ws'' ≠ ws := hwitness_old ws'' c'' hm hcr'' h1
      rw [hcl]
      exact ⟨h1, h2, ws'', c'', mem_alSet_of_mem_ne hm hwsne, hcid'', hcr''⟩
    · rw [memberSet_registerClient st1.sub st1.serverId now cid r (some rl)
        hempty hrne r'] at hmem
      by_cases hre : r = r'
      · subst hre
        rw [if_pos rfl] at hmem
        rcases mem_setAdd.mp hmem with hmem' | hidnew
        · obtain ⟨h1, h2, ws'', c'', hm, hcid'', hcr''⟩ :=
            hinv.memberSound r id' hmem'
          have hwsne : ws'' ≠ ws := hwitness_old ws'' c'' hm hcr'' h1
          rw [hcl]
          exact ⟨h1, h2, ws'', c'', mem_alSet_of_mem_ne hm hwsne, hcid'', hcr''⟩
        · rw [hcl]
          exact ⟨hrne, by rw [hidnew]; exact hempty, ws, ⟨cid, some r, some rl⟩,
            mem_alSet_self _, hidnew.symm, rfl⟩
      · rw [if_neg hre] at hmem
        obtain ⟨h1, h2, ws'', c'', hm, hcid'', hcr''⟩ := hinv.memberSound r' id' hmem
        have hwsne : ws'' ≠ ws := hwitness_old ws'' c'' hm hcr'' h1
        rw [hcl]
        exact ⟨h1, h2, ws'', c'', mem_alSet_of_mem_ne hm hwsne, hcid'', hcr''⟩

theorem inv_join {s : NodeState} (hinv : Inv s) (ws : Nat)
    (roomId role : Option String) (now : String) :
    Inv (handleJoin s ws roomId role now).st := by
  cases hc : alGet s.clients ws with
  | none =>
    have : handleJoin s ws roomId role now = noopOut s := by
      simp [handleJoin, hc]
    rw [this]
    exact hinv
  | some c =>
    by_cases hguard : truthy roomId && truthy role
    · obtain ⟨hroomt, hrolet⟩ := Bool.and_eq_true_iff.mp hguard
      obtain ⟨r, hreq, hrne⟩ := (truthy_eq_true_iff roomId).mp hroomt
      obtain ⟨rl, hrleq, hrlne⟩ := (truthy_eq_true_iff role).mp hrolet
      subst hreq
      subst hrleq
      rw [handleJoin_truthy_eq s ws c r rl now hc hrne hrlne]
      dsimp only
      by_cases hleave : truthy c.roomId
      · simp only [hleave, if_true]
        obtain ⟨r0, hr0, hr0ne⟩ := (truthy_eq_true_iff c.roomId).mp hleave
        have hinvL : Inv (handleLeave s ws).st := inv_leave hinv ws
        have hgetL : alGet (handleLeave s ws).st.clients ws = some ⟨c.id, none, none⟩ := by
          rw [handleLeave_acts s ws c r0 hc hr0 hr0ne]
          show alGet (alSet s.clients ws ⟨c.id, none, none⟩) ws = _
          rw [alGet_alSet, if_pos rfl]
        exact inv_joinCont hinvL ws ⟨c.id, none, none⟩ c.id r rl now hgetL rfl rfl hrne
      · simp only [hleave, if_false, Bool.false_eq_true, noopOut]
        exact inv_joinCont hinv ws c c.id r rl now hc rfl (by simpa using hleave) hrne
    · have hfal : truthy roomId = false ∨ truthy role = false := by
        cases h1 : truthy roomId
        · exact Or.inl rfl
        · cases h2 : truthy role
          · exact Or.inr rfl
          · exact absurd (by rw [h1, h2]; rfl) hguard
      have hst : (handleJoin s ws roomId role now).st = s := by
        rcases hfal with h | h <;> simp [handleJoin, hc, h]
      rw [hst]
      exact hinv

theorem inv_disconnect {s : NodeState} (hinv : Inv s) (ws : Nat) :
    Inv (handleDisconnect s ws).st := by
  cases hc : alGet s.clients ws with
  | none =>
    have : handleDisconnect s ws = noopOut s := by simp [handleDisconnect, hc]
    rw [this]
    exact hinv
  | some c =>
    have hinvL := inv_leave hinv ws
    obtain ⟨c2, hget2, hcr2⟩ := handleLeave_get s ws c hc
    have hstep : (handleDisconnect s ws).st =
        { (handleLeave s ws).st with
            clients := alDel (handleLeave s ws).st.clients ws } := by
      simp [handleDisconnect, hc]
    rw [hstep]
    refine ⟨?_, ?_, ?_, ?_⟩
    · intro p hp
      exact hinvL.wsBound p (mem_of_mem_alDel hp)
    · show ((alDel (handleLeave s ws).st.clients ws).map Prod.fst).Nodup
      exact List.Nodup.sublist (map_alDel_sublist Prod.fst _ ws) hinvL.wsNodup
    · show ((alDel (handleLeave s ws).st.clients ws).map (fun p => p.2.id)).Nodup
      exact List.Nodup.sublist
        (map_alDel_sublist (fun (p : Nat × Client) => p.2.id) _ ws) hinvL.idNodup
    · intro r' id' hmem
      obtain ⟨h1, h2, ws'', c'', hm, hcid'', hcr''⟩ := hinvL.memberSound r' id' hmem
      have hwsne : ws'' ≠ ws := by
        intro he
        subst he
        have hceq : c'' = c2 := hinvL.client_unique hget2 hm
        rw [hceq] at hcr''
        rw [hcr''] at hcr2
        simp [truthy] at hcr2
        exact h1 hcr2
      exact ⟨h1, h2, ws'', c'', mem_alDel_of_mem_ne hm hwsne, hcid'', hcr''⟩

theorem inv_step {s : NodeState} (hinv : Inv s) (e : Event) (now : String) :
    Inv (stepEvent s e now).st := by
  cases e with
  | join ws roomId role => exact inv_join hinv ws roomId role now
  | offer ws t o =>
    show Inv (handleOffer s ws t o).st
    rw [handleOffer_st]
    exact hinv
  | answer ws t a =>
    show Inv (handleAnswer s ws t a).st
    rw [handleAnswer_st]
    exact hinv
  | ice ws t cd =>
    show Inv (handleIceCandidate s ws t cd).st
    rw [handleIceCandidate_st]
    exact hinv
  | leave ws => exact inv_leave hinv ws
  | disconnect ws => exact inv_disconnect hinv ws
  | relay p => exact hinv

theorem inv_reachable {s : NodeState} (h : Reachable s) : Inv s := by
  induction h with
  | init serverId => exact inv_init serverId
  | connect id h fresh ih => exact inv_connect id ih fresh
  | evt e now h ih => exact inv_step ih e now

/-! ### Concrete states used by the witnesses -/

/-- A node `s1` with one connected client `c1` that has not joined a room. -/
def nodeW : NodeState :=
  ⟨"s1", [(0, ⟨"c1", none, none⟩)], [], 1, Substrate.empty⟩

/-- A node `s1` whose single client `c1` is the last member of room `r1`,
locally and in the substrate. -/
def nodeR : NodeState :=
  ⟨"s1", [(0, ⟨"c1", some "r1", some "viewer"⟩)], [("r1", [0])], 1,
   ⟨["r1"], [("r1", ["c1"])], [("c1", ⟨"c1", "r1", "viewer", "s1", "t0"⟩)]⟩⟩

/-- The reachable state after one connect and one join on a fresh node. -/
def nodeJ : NodeState :=
  (stepEvent (connectStep (initState "s1") "c1").st
    (.join 0 (some "r1") (some "viewer")) "t0").st

/-! ### C1: unknown relay targets -/

/-- C1: when the target of an offer or answer is unknown — no locally
connected client has the id and the substrate holds no client hash for it —
the sender gets an `error` naming the missing target, nothing is published,
and no state changes; an ICE candidate to the same unknown target is dropped
with no error, no publish and no state change. -/
theorem offerAnswerErrorIceSilentOnUnknownTarget
    (st : NodeState) (ws : Nat) (c : Client) (t sdp ans cand : String)
    (hc : alGet st.clients ws = some c)
    (ht : ¬t.isEmpty)
    (hlocal : findClientById st t = none)
    (hsub : getClient st.sub (some t) = none) :
    handleOffer st ws (some t) (some sdp) =
      ⟨st, [(ws, .error ("Target client " ++ t ++ " not found"))], [], []⟩ ∧
    handleAnswer st ws (some t) (some ans) =
      ⟨st, [(ws, .error ("Target client " ++ t ++ " not found"))], [], []⟩ ∧
    handleIceCandidate st ws (some t) (some cand) = ⟨st, [], [], []⟩ := by
  refine ⟨?_, ?_, ?_⟩ <;>
    simp [handleOffer, handleAnswer, handleIceCandidate, hc, truthy_some ht,
      relayOrSend, hlocal, hsub]

theorem offerAnswerErrorIceSilentOnUnknownTarget_witness :
    handleOffer nodeW 0 (some "zz") (some "sdp") =
      ⟨nodeW, [(0, .error "Target client zz not found")], [], []⟩ ∧
    handleAnswer nodeW 0 (some "zz") (some "a") =
      ⟨nodeW, [(0, .error "Target client zz not found")], [], []⟩ ∧
    handleIceCandidate nodeW 0 (some "zz") (some "cand") = ⟨nodeW, [], [], []⟩ :=
  offerAnswerErrorIceSilentOnUnknownTarget nodeW 0 ⟨"c1", none, none⟩ "zz" "sdp" "a" "cand"
    (by decide) (by decide) (by decide) (by decide)

/-! ### C2: join with missing fields -/

/-- C2: a `join` whose `roomId` or `role` is falsy is answered with an error
and changes nothing: the node state — including the client's in-memory
`roomId` and `role` — is returned unchanged and no Redis transaction and no
relay publish happens. -/
theorem joinMissingFieldsError (st : NodeState) (ws : Nat) (c : Client)
    (roomId role : Option String) (now : String)
    (hc : alGet st.clients ws = some c)
    (h : truthy roomId = false ∨ truthy role = false) :
    handleJoin st ws roomId role now =
      ⟨st, [(ws, .error "roomId and role are required")], [], []⟩ := by
  rcases h with h | h <;> simp [handleJoin, hc, h]

theorem joinMissingFieldsError_witness :
    handleJoin nodeW 0 none (some "viewer") "t0" =
      ⟨nodeW, [(0, .error "roomId and role are required")], [], []⟩ :=
  joinMissingFieldsError nodeW 0 ⟨"c1", none, none⟩ none (some "viewer") "t0"
    (by decide) (Or.inl rfl)

/-! ### C3: successful join -/

/-- C3: a join with a (truthy) room and role registers the client in the
substrate — room added to the index, client id added to the member set,
client hash written — inside one single transaction (the last transaction the
join runs), and the `joined` reply sent to the client carries the participant
list read from the post-join substrate. -/
theorem joinRegistersAtomicallyAndReplies
    (st : NodeState) (ws : Nat) (c : Client) (r rl now : String)
    (hc : alGet st.clients ws = some c)
    (hr : ¬r.isEmpty) (hrl : ¬rl.isEmpty) (hid : ¬c.id.isEmpty) :
    (handleJoin st ws (some r) (some rl) now).txns.getLast? =
      some [.saddIndex r, .saddMembers r c.id,
            .hsetClient c.id ⟨c.id, r, rl, st.serverId, now⟩] ∧
    (ws, SigMsg.joined r rl
        (listParticipants (handleJoin st ws (some r) (some rl) now).st.sub (some r))) ∈
      (handleJoin st ws (some r) (some rl) now).sends ∧
    c.id ∈ memberSet (handleJoin st ws (some r) (some rl) now).st.sub r ∧
    r ∈ (handleJoin st ws (some r) (some rl) now).st.sub.roomIndex ∧
    alGet (handleJoin st ws (some r) (some rl) now).st.sub.clientHash c.id =
      some ⟨c.id, r, rl, st.serverId, now⟩ := by
  rw [handleJoin_truthy_eq st ws c r rl now hc hr hrl]
  dsimp only
  set out1 := if truthy c.roomId then handleLeave st ws else noopOut st with hout1
  have hsrv : out1.st.serverId = st.serverId := by
    rw [hout1]
    by_cases h : truthy c.roomId
    · simp [h, handleLeave_serverId]
    · simp [h, noopOut]
  obtain ⟨hsub, htx, _⟩ := joinCont_eq out1.st ws c.id r rl now
  rw [hsrv] at hsub htx
  have hrole : (some rl).getD "" = rl := rfl
  refine ⟨?_, ?_, ?_, ?_, ?_⟩
  · rw [htx, txns_registerClient out1.st.sub st.serverId now c.id r (some rl) hid hr,
      List.getLast?_concat]
    simp [hrole]
  · simp [List.mem_append]
  · rw [hsub]
    have := memberSet_registerClient out1.st.sub st.serverId now c.id r (some rl) hid hr r
    rw [if_pos rfl] at this
    rw [this]
    exact mem_setAdd.mpr (Or.inr rfl)
  · rw [hsub]
    exact roomIndex_registerClient out1.st.sub st.serverId now c.id r (some rl) hid hr
  · rw [hsub]
    rw [clientHash_registerClient out1.st.sub st.serverId now c.id r (some rl) hid hr]
    simp [hrole]

theorem joinRegistersAtomicallyAndReplies_witness :
    (handleJoin nodeW 0 (some "r1") (some "viewer") "t0").txns.getLast? =
      some [.saddIndex "r1", .saddMembers "r1" "c1",
            .hsetClient "c1" ⟨"c1", "r1", "viewer", "s1", "t0"⟩] ∧
    (0, SigMsg.joined "r1" "viewer"
        (listParticipants (handleJoin nodeW 0 (some "r1") (some "viewer") "t0").st.sub
          (some "r1"))) ∈
      (handleJoin nodeW 0 (some "r1") (some "viewer") "t0").sends ∧
    "c1" ∈ memberSet (handleJoin nodeW 0 (some "r1") (some "viewer") "t0").st.sub "r1" ∧
    "r1" ∈ (handleJoin nodeW 0 (some "r1") (some "viewer") "t0").st.sub.roomIndex ∧
    alGet (handleJoin nodeW 0 (some "r1") (some "viewer") "t0").st.sub.clientHash "c1" =
      some ⟨"c1", "r1", "viewer", "s1", "t0"⟩ :=
  joinRegistersAtomicallyAndReplies nodeW 0 ⟨"c1", none, none⟩ "r1" "viewer" "t0"
    (by decide) (by decide) (by decide) (by decide)

/-! ### C4: empty-room garbage collection -/

theorem leaveLocal_rooms_cleanup (st : NodeState) (ws : Nat) (cid r : String)
    (hlocal : alGet st.rooms r = some [ws]) :
    alGet (leaveLocal st ws cid r).1.rooms r = none := by
  simp [leaveLocal, hlocal, alGet_alDel]

theorem handleDisconnect_st (st : NodeState) (ws : Nat) (c : Client)
    (hc : alGet st.clients ws = some c) :
    (handleDisconnect st ws).st.rooms = (handleLeave st ws).st.rooms ∧
    (handleDisconnect st ws).st.sub = (handleLeave st ws).st.sub := by
  simp [handleDisconnect, hc]

/-- C4: when a leave (or a disconnect, which performs the same leave) removes
the last member of a room — the client's socket is the only one in the local
room set and its id the only one in the substrate member set — the room's
member-set key is deleted from the substrate, the room is removed from the
substrate room index, and the room is dropped from the node's in-memory room
map. -/
theorem emptyRoomGarbageCollected
    (st : NodeState) (ws : Nat) (c : Client) (r : String)
    (hc : alGet st.clients ws = some c) (hr : c.roomId = some r)
    (hrne : ¬r.isEmpty) (hidne : ¬c.id.isEmpty)
    (hlocal : alGet st.rooms r = some [ws])
    (hsub : memberSet st.sub r = [c.id]) :
    (alGet (handleLeave st ws).st.rooms r = none ∧
     alGet (handleLeave st ws).st.sub.roomMembers r = none ∧
     r ∉ (handleLeave st ws).st.sub.roomIndex) ∧
    (alGet (handleDisconnect st ws).st.rooms r = none ∧
     alGet (handleDisconnect st ws).st.sub.roomMembers r = none ∧
     r ∉ (handleDisconnect st ws).st.sub.roomIndex) := by
  have hlast : setRem (memberSet st.sub r) c.id = [] := by
    rw [hsub]; simp [setRem]
  have hcl := removeClient_cleanup st.sub c.id r hidne hrne hlast
  have hmain : alGet (handleLeave st ws).st.rooms r = none ∧
      alGet (handleLeave st ws).st.sub.roomMembers r = none ∧
      r ∉ (handleLeave st ws).st.sub.roomIndex := by
    rw [handleLeave_acts st ws c r hc hr hrne]
    exact ⟨leaveLocal_rooms_cleanup st ws c.id r hlocal, hcl.1, hcl.2⟩
  obtain ⟨hrooms, hsubeq⟩ := handleDisconnect_st st ws c hc
  exact ⟨hmain, by rw [hrooms, hsubeq]; exact hmain⟩

theorem emptyRoomGarbageCollected_witness :
    (alGet (handleLeave nodeR 0).st.rooms "r1" = none ∧
     alGet (handleLeave nodeR 0).st.sub.roomMembers "r1" = none ∧
     "r1" ∉ (handleLeave nodeR 0).st.sub.roomIndex) ∧
    (alGet (handleDisconnect nodeR 0).st.rooms "r1" = none ∧
     alGet (handleDisconnect nodeR 0).st.sub.roomMembers "r1" = none ∧
     "r1" ∉ (handleDisconnect nodeR 0).st.sub.roomIndex) :=
  emptyRoomGarbageCollected nodeR 0 ⟨"c1", some "r1", some "viewer"⟩ "r1"
    (by decide) rfl (by decide) (by decide) (by decide) (by decide)

/-! ### C5: a client is in at most one room -/

/-- C5: in every reachable state of a signaling node, a client id is a member
of at most one room's member set in the substrate: joining while already in a
room first runs the full leave of the current room, so two member sets never
both hold the same id. -/
theorem clientInAtMostOneRoom (st : NodeState) (h : Reachable st)
    (id r1 r2 : String)
    (h1 : id ∈ memberSet st.sub r1) (h2 : id ∈ memberSet st.sub r2) : r1 = r2 := by
  have hinv := inv_reachable h
  obtain ⟨-, -, ws1, c1, hm1, hid1, hr1⟩ := hinv.memberSound r1 id h1
  obtain ⟨-, -, ws2, c2, hm2, hid2, hr2⟩ := hinv.memberSound r2 id h2
  have hpair : (ws1, c1) = (ws2, c2) :=
    List.inj_on_of_nodup_map hinv.idNodup hm1 hm2 (by rw [hid1, hid2])
  have hceq : c1 = c2 := congrArg Prod.snd hpair
  rw [hceq] at hr1
  rw [hr1] at hr2
  exact Option.some.inj hr2

theorem clientInAtMostOneRoom_witness :
    Reachable nodeJ ∧ "c1" ∈ memberSet nodeJ.sub "r1" ∧ ("r1" : String) = "r1" := by
  have hreach : Reachable nodeJ :=
    Reachable.evt (Event.join 0 (some "r1") (some "viewer")) "t0"
      (Reachable.connect "c1" (Reachable.init "s1") (by decide))
  have hmem : "c1" ∈ memberSet nodeJ.sub "r1" := by decide
  exact ⟨hreach, hmem, clientInAtMostOneRoom nodeJ hreach "c1" "r1" "r1" hmem hmem⟩

/-! ### C9: registerClient with missing fields -/

/-- C9: `registerClient` called with a missing `id` or a missing `roomId`
returns without touching the substrate: the substrate is unchanged and no
transaction is executed, so no client hash, member set or room index entry
appears. -/
theorem registerClientMissingNoop (s : Substrate) (serverId now : String)
    (id roomId role : Option String) (h : id = none ∨ roomId = none) :
    registerClient s serverId now id roomId role = (s, []) := by
  rcases h with h | h <;> subst h
  · exact registerClient_falsy s serverId now none roomId role (Or.inl rfl)
  · exact registerClient_falsy s serverId now id none role (Or.inr rfl)

theorem registerClientMissingNoop_witness :
    registerClient Substrate.empty "s1" "t0" none (some "r1") (some "viewer") =
      (Substrate.empty, []) :=
  registerClientMissingNoop Substrate.empty "s1" "t0" none (some "r1") (some "viewer")
    (Or.inl rfl)

/-! ### C10: relay deliveries of this node's own payloads -/

/-- C10: a node never delivers a relay payload it published itself: whenever
the payload's `originServerId` equals the receiving node's `serverId`,
`handleRelayDelivery` sends nothing to any client. -/
theorem relayDeliveryIgnoresSelfOrigin (st : NodeState) (p : RelayPayload)
    (h : p.originServerId = st.serverId) :
    handleRelayDelivery st (some p) = [] := by
  by_cases ht : p.targetServerId = st.serverId <;>
    simp [handleRelayDelivery, ht, h]

theorem relayDeliveryIgnoresSelfOrigin_witness :
    handleRelayDelivery nodeR (some ⟨"s1", "s1", "c1", some (.offer "c9" "x")⟩) = [] :=
  relayDeliveryIgnoresSelfOrigin nodeR ⟨"s1", "s1", "c1", some (.offer "c9" "x")⟩ rfl

/-! ### C6: relay-channel delivery -/

/-- C6 fails as stated: this payload's target node equals the receiving node
and the target client `c1` is locally connected, yet the offer is not
delivered (the delivery handler also requires the origin to differ from the
receiving node); and no `TargetMissing` error is sent either. -/
theorem relayDeliverySelfOriginCounterexample :
    (RelayPayload.mk "s1" "s1" "c1" (some (.offer "c9" "x"))).targetServerId =
      nodeR.serverId ∧
    findClientById nodeR "c1" = some 0 ∧
    handleRelayDelivery nodeR (some ⟨"s1", "s1", "c1", some (.offer "c9" "x")⟩) = [] :=
  ⟨rfl, by decide, by decide⟩

/-- C6 amended: a relay payload is delivered to the target client exactly
when its target node is the receiving node, its origin node is a different
node, the target client is still locally connected and a message body is
present; in every other case — including offers and answers — the payload is
dropped silently, and the delivery handler never notifies the sender of a
missing target. -/
theorem relayDeliveryAmended (st : NodeState) (p : RelayPayload) :
    (∀ tws m, p.targetServerId = st.serverId → p.originServerId ≠ st.serverId →
      findClientById st p.targetId = some tws → p.message = some m →
      handleRelayDelivery st (some p) = [(tws, m)]) ∧
    ((p.targetServerId ≠ st.serverId ∨ p.originServerId = st.serverId ∨
      findClientById st p.targetId = none ∨ p.message = none) →
      handleRelayDelivery st (some p) = []) := by
  constructor
  · intro tws m h1 h2 h3 h4
    simp [handleRelayDelivery, h1, h2, h3, h4]
  · rintro (h | h | h | h)
    · simp [handleRelayDelivery, h]
    · by_cases ht : p.targetServerId = st.serverId <;>
        simp [handleRelayDelivery, ht, h]
    · by_cases ht : p.targetServerId = st.serverId <;>
        by_cases ho : p.originServerId = st.serverId <;>
        simp [handleRelayDelivery, ht, ho, h]
    · by_cases ht : p.targetServerId = st.serverId <;>
        by_cases ho : p.originServerId = st.serverId <;>
        cases hf : findClientById st p.targetId <;>
        simp [handleRelayDelivery, ht, ho, hf, h]

theorem relayDeliveryAmended_witness :
    handleRelayDelivery nodeR (some ⟨"s2", "s1", "c1", some (.answer "c9" "x")⟩) =
      [(0, .answer "c9" "x")] ∧
    handleRelayDelivery nodeR (some ⟨"s2", "s3", "c1", some (.answer "c9" "x")⟩) = [] :=
  ⟨(relayDeliveryAmended nodeR ⟨"s2", "s1", "c1", some (.answer "c9" "x")⟩).1 0
      (.answer "c9" "x") rfl (by decide) (by decide) rfl,
   (relayDeliveryAmended nodeR ⟨"s2", "s3", "c1", some (.answer "c9" "x")⟩).2
      (Or.inl (by decide))⟩

/-! ### CRDT document persistence (`collab-server/redisPersistence.js`)

A Yjs document is modelled as the set of elementary updates it has absorbed:
the CRDT merge is commutative, associative and idempotent, and
`Y.encodeStateAsUpdate` produces one update carrying the whole state, which
`Y.applyUpdate` absorbs back.  The base64 wrapping of the stored value is the
identity of this model. -/

/-- A Yjs document: the elementary updates absorbed so far. -/
abbrev YDoc := List String

/-- A Yjs update: a batch of elementary updates. -/
abbrev YUpdate := List String

/-- Model of `Y.applyUpdate`: absorb every element of the batch (idempotent,
order-insensitive merge). -/
def applyUpdateY (d : YDoc) (u : YUpdate) : YDoc :=
  u.foldl setAdd d

/-- Model of `Y.encodeStateAsUpdate`: one update holding the full state. -/
def encodeStateAsUpdate (d : YDoc) : YUpdate := d

/-- The document keys `{doc key space}` of the substrate. -/
abbrev DocKV := List (String × YUpdate)

/-- `RedisPersistence.docKey`. -/
def docKey (pre docName : String) : String := pre ++ ":" ++ docName

/-- `RedisPersistence.writeState`: `SET` the key to the full re-encoded
document state. -/
def writeState (kv : DocKV) (pre docName : String) (d : YDoc) : DocKV :=
  alSet kv (docKey pre docName) (encodeStateAsUpdate d)

/-- `RedisPersistence._loadState`: `GET` the key; a missing payload returns
with the document untouched, otherwise the payload is applied as one
update. -/
def loadStateDoc (kv : DocKV) (pre docName : String) (d : YDoc) : YDoc :=
  match alGet kv (docKey pre docName) with
  | none => d
  | some payload => applyUpdateY d payload

/-- `RedisPersistence.bindState`: load the latest stored state, then listen
on every future `update` event of the document (the listener is
`onLocalUpdate` below). -/
def bindState (kv : DocKV) (pre docName : String) (d : YDoc) : YDoc :=
  loadStateDoc kv pre docName d

/-- One local update on a bound document: Yjs merges it in and fires
`update`, whose bound listener synchronously rewrites the key with the full
encoded state of the merged document. -/
def onLocalUpdate (kv : DocKV) (pre docName : String) (d : YDoc) (u : YUpdate) :
    YDoc × DocKV :=
  let d2 := applyUpdateY d u
  (d2, writeState kv pre docName d2)

/-! ### Awareness relay (`collab-server/redisAwareness.js`)

`Symbol('redis-awareness')` is a per-instance origin marker; origins are
modelled as natural numbers, the instance's own marker being a field.  The
y-protocols awareness map and its update codec are modelled at the level of
`client id ↦ state` maps. -/

/-- Model of the y-protocols awareness map: client id ↦ encoded state. -/
abbrev Awareness := List (Nat × String)

/-- An encoded awareness update: each changed client's new state (`none`
encodes removal). -/
abbrev AwUpdate := List (Nat × Option String)

/-- Model of `awarenessProtocol.encodeAwarenessUpdate`: the current states of
the changed clients. -/
def encodeAwarenessUpdate (a : Awareness) (changed : List Nat) : AwUpdate :=
  changed.map (fun cl => (cl, alGet a cl))

/-- Model of `awarenessProtocol.applyAwarenessUpdate` on the map. -/
def applyAwarenessUpdate (a : Awareness) (u : AwUpdate) : Awareness :=
  u.foldl (fun acc p =>
    match p.2 with
    | none => alDel acc p.1
    | some stv => alSet acc p.1 stv) a

/-- The `{added, updated, removed}` change sets and the origin of the
`update` event the awareness emits after an update is applied. -/
structure AwEvent where
  added : List Nat
  updated : List Nat
  removed : List Nat
  origin : Nat
deriving DecidableEq, Repr

/-- The event fired by applying an update tagged with an origin: clients new
to the map are `added`, present ones with a fresh state `updated`, cleared
ones `removed`. -/
def awApplyEvent (a : Awareness) (u : AwUpdate) (origin : Nat) : AwEvent :=
  ⟨(u.filter (fun p => (alGet a p.1).isNone && p.2.isSome)).map Prod.fst,
   (u.filter (fun p => (alGet a p.1).isSome && p.2.isSome)).map Prod.fst,
   (u.filter (fun p => p.2.isNone)).map Prod.fst,
   origin⟩

/-- One awareness relay instance: its channel name space, its own origin
marker, and the documents it watches. -/
structure RedisAwareness where
  pre : String
  origin : Nat
  boundDocs : List (String × Awareness)
deriving DecidableEq, Repr

/-- `RedisAwareness.channelName`. -/
def channelName (ra : RedisAwareness) (docName : String) : String :=
  ra.pre ++ ":" ++ docName

/-- `channel.startsWith(prefixString)` of the JS runtime, on the character
list. -/
def strStartsWith (s p : String) : Bool :=
  s.data.take p.data.length == p.data

/-- `channel.slice(n)` of the JS runtime, on the character list. -/
def strDrop (s : String) (n : Nat) : String :=
  String.mk (s.data.drop n)

/-- `RedisAwareness.watch`: bind the document unless the name is falsy or it
is already bound (the awareness object itself is always truthy). -/
def watch (ra : RedisAwareness) (docName : String) (aw : Awareness) : RedisAwareness :=
  if docName.isEmpty || (alGet ra.boundDocs docName).isSome then ra
  else { ra with boundDocs := alSet ra.boundDocs docName aw }

/-- The `update` handler `watch` registers on the awareness: return without
publishing when the change originated from the relay itself (origin marker)
or when the concatenated change set is empty; otherwise encode the changed
clients and publish on the document's channel. -/
def awarenessHandler (ra : RedisAwareness) (docName : String) (aw : Awareness)
    (added updated removed : List Nat) (origin : Nat) :
    Option (String × AwUpdate) :=
  if origin = ra.origin then none
  else
    let changed := added ++ updated ++ removed
    if changed.length = 0 then none
    else some (channelName ra docName, encodeAwarenessUpdate aw changed)

/-- `RedisAwareness.handleMessage`: ignore channels outside the name space,
unbound documents and empty payloads; otherwise apply the decoded update to
the bound awareness tagged with the relay's own origin marker.  Returns the
new relay state and the `update` event the application fires. -/
def handleAwMessage (ra : RedisAwareness) (channel : String)
    (payload : Option AwUpdate) : RedisAwareness × Option AwEvent :=
  if ¬strStartsWith channel ra.pre then (ra, none)
  else
    let docName := strDrop channel (ra.pre.length + 1)
    match alGet ra.boundDocs docName, payload with
    | some aw, some u =>
      ({ ra with boundDocs := alSet ra.boundDocs docName (applyAwarenessUpdate aw u) },
       some (awApplyEvent aw u ra.origin))
    | _, _ => (ra, none)

/-! ### C7: persistence loads on bind and rewrites on every update -/

/-- C7: binding a document loads the stored encoded state and applies it to
the in-memory document, a missing key leaving it unchanged; and every local
update after binding makes the listener rewrite the key with the full
re-encoding of the updated document.  The listener runs synchronously with
each update — the write-coalescing delay is zero, within the 50 ms bound. -/
theorem persistenceLoadsAndRewrites (kv : DocKV) (pre docName : String)
    (d : YDoc) (payload u : YUpdate) :
    (alGet kv (docKey pre docName) = none → bindState kv pre docName d = d) ∧
    (alGet kv (docKey pre docName) = some payload →
      bindState kv pre docName d = applyUpdateY d payload) ∧
    (onLocalUpdate kv pre docName d u).1 = applyUpdateY d u ∧
    alGet (onLocalUpdate kv pre docName d u).2 (docKey pre docName) =
      some (encodeStateAsUpdate (applyUpdateY d u)) := by
  refine ⟨?_, ?_, rfl, ?_⟩
  · intro h
    simp [bindState, loadStateDoc, h]
  · intro h
    simp [bindState, loadStateDoc, h]
  · simp [onLocalUpdate, writeState, alGet_alSet]

theorem persistenceLoadsAndRewrites_witness :
    bindState [] "collab:yjs:doc" "d1" ["x"] = ["x"] ∧
    bindState [(docKey "collab:yjs:doc" "d1", ["a"])] "collab:yjs:doc" "d1" ["x"] =
      applyUpdateY ["x"] ["a"] ∧
    alGet (onLocalUpdate [] "collab:yjs:doc" "d1" ["x"] ["b"]).2
        (docKey "collab:yjs:doc" "d1") =
      some (encodeStateAsUpdate (applyUpdateY ["x"] ["b"])) :=
  ⟨(persistenceLoadsAndRewrites [] "collab:yjs:doc" "d1" ["x"] ["a"] ["b"]).1 rfl,
   (persistenceLoadsAndRewrites [(docKey "collab:yjs:doc" "d1", ["a"])]
      "collab:yjs:doc" "d1" ["x"] ["a"] ["b"]).2.1 (by decide),
   (persistenceLoadsAndRewrites [] "collab:yjs:doc" "d1" ["x"] ["a"] ["b"]).2.2.2⟩

/-! ### C8: awareness origin filtering -/

/-- C8: a watched document's awareness change whose origin is the relay's own
marker is never published; every other change with a non-empty changed-client
set is encoded and published on the document's channel; and an inbound
channel message is applied to the local awareness tagged with the relay's own
origin marker, so the event it fires is filtered out by the handler and never
echoed back. -/
theorem awarenessOriginFiltering :
    (∀ (ra : RedisAwareness) (d : String) (aw : Awareness) (a u r : List Nat),
      awarenessHandler ra d aw a u r ra.origin = none) ∧
    (∀ (ra : RedisAwareness) (d : String) (aw : Awareness) (a u r : List Nat)
      (o : Nat), o ≠ ra.origin → a ++ u ++ r ≠ [] →
      awarenessHandler ra d aw a u r o =
        some (channelName ra d, encodeAwarenessUpdate aw (a ++ u ++ r))) ∧
    (∀ (ra : RedisAwareness) (ch : String) (p : Option AwUpdate) (ev : AwEvent),
      (handleAwMessage ra ch p).2 = some ev →
      ev.origin = ra.origin ∧
        ∀ (d : String) (aw : Awareness),
          awarenessHandler ra d aw ev.added ev.updated ev.removed ev.origin = none) := by
  refine ⟨?_, ?_, ?_⟩
  · intro ra d aw a u r
    simp [awarenessHandler]
  · intro ra d aw a u r o ho hne
    have hlen : (a ++ u ++ r).length ≠ 0 := by
      simpa [List.length_eq_zero] using hne
    simp [awarenessHandler, ho, hlen]
    intro ha hu hr
    exact hne (by simp [ha, hu, hr])
  · intro ra ch p ev hev
    by_cases hch : strStartsWith ch ra.pre
    · rcases hb : alGet ra.boundDocs (strDrop ch (ra.pre.length + 1)) with _ | aw <;>
        rcases p with _ | u <;>
        simp [handleAwMessage, hch, hb] at hev
      subst hev
      exact ⟨rfl, fun d aw' => by simp [awarenessHandler, awApplyEvent]⟩
    · simp [handleAwMessage, hch] at hev

/-- A concrete relay instance watching `doc1`. -/
def raW : RedisAwareness :=
  ⟨"collab:yjs:awareness", 7, [("doc1", [(1, "s")])]⟩

theorem awarenessOriginFiltering_witness :
    awarenessHandler raW "doc1" [(1, "s")] [1] [] [] 7 = none ∧
    awarenessHandler raW "doc1" [(1, "s")] [1] [] [] 3 =
      some (channelName raW "doc1", encodeAwarenessUpdate [(1, "s")] [1]) ∧
    (AwEvent.mk [2] [] [] 7).origin = raW.origin ∧
    awarenessHandler raW "doc1" [(1, "s")] [2] [] [] 7 = none := by
  have h3 := awarenessOriginFiltering.2.2 raW "collab:yjs:awareness:doc1"
    (some [(2, some "t")]) ⟨[2], [], [], 7⟩ (by decide)
  exact ⟨awarenessOriginFiltering.1 raW "doc1" [(1, "s")] [1] [] [],
    awarenessOriginFiltering.2.1 raW "doc1" [(1, "s")] [1] [] [] 3
      (by decide) (by decide),
    h3.1, h3.2 "doc1" [(1, "s")]⟩

end CoSim
